import Mathlib

/-!
# Verification of the MarkBind PlantUML plugin and the list-parsing core

Shallow embedding of `src/plugins/default/markbind-plugin-plantuml.js`
(the plugin that replaces `<puml>` tags by `<pic>` tags and generates the
diagram files) and, modelled from the specification, of the Markdown
list tokenizer / tree builder / renderer core.

External libraries used by the plugin (node `path`, `crypto-js` MD5,
`cheerio`) are modelled as pure functions; the file system and the child
process are modelled by explicit state passing.
-/

namespace Plantuml

/-- Splits a character list at every occurrence of `sep`; the result is
never empty. -/
def splitOnChar (sep : Char) : List Char → List (List Char)
  | [] => [[]]
  | c :: cs =>
    match splitOnChar sep cs with
    | [] => if c = sep then [[], []] else [[c]]
    | g :: gs => if c = sep then [] :: g :: gs else (c :: g) :: gs

/-- Joins character-list groups with `sep` between them. -/
def intercalateChar (sep : Char) : List (List Char) → List Char
  | [] => []
  | [g] => g
  | g :: gs => g ++ sep :: intercalateChar sep gs

/-- Model of node's `path.dirname`: the components before the last `/`,
or `.` when the path has a single component. -/
def pathDirname (p : String) : String :=
  let parts := splitOnChar '/' p.data
  if parts.length ≤ 1 then "." else String.mk (intercalateChar '/' parts.dropLast)

/-- Model of node's `path.basename`: the component after the last `/`. -/
def pathBasename (p : String) : String :=
  String.mk (((splitOnChar '/' p.data).getLast?).getD [])

/-- Model of node's `path.join` on two segments. -/
def pathJoin (a b : String) : String :=
  if a = "" ∨ a = "." then b
  else if b = "" ∨ b = "." then a
  else a ++ "/" ++ b

/-- Model of node's `path.resolve` on two segments: an absolute second
segment wins, otherwise it is joined onto the first. -/
def pathResolve (a b : String) : String :=
  match b.data with
  | '/' :: _ => b
  | _ => pathJoin a b

/-- Drops the final extension of a single path component: the part after
the last dot, unless the dot is the leading character of the component. -/
def dropExtension (base : String) : String :=
  match splitOnChar '.' base.data with
  | [] => base
  | [_] => base
  | p :: ps => if p = [] ∧ ps.length = 1 then base
               else String.mk (intercalateChar '.' (p :: ps).dropLast)

/-- Modelled from the spec: `fsUtil.removeExtension` (in `util/fsUtil.js`,
not under `src/`) — yields the src path with its extension removed, keeping
the directory part. -/
def removeExtension (p : String) : String :=
  pathJoin (pathDirname p) (dropExtension (pathBasename p))

/-- A child node of a parsed tag, as the plugin sees it through cheerio:
a `type` discriminator (`"text"` for text nodes) and its `data`. -/
structure ChildNode where
  type : String
  data : String
deriving Repr, DecidableEq

/-- The attributes of a tag that the plugin reads or writes (`name`,
`src`, `cwf`); `others` carries the remaining attributes untouched.
`none` models a JavaScript `undefined` attribute. -/
structure Attribs where
  name : Option String := none
  src : Option String := none
  cwf : Option String := none
  others : List (String × String) := []
deriving Repr, DecidableEq

/-- A parsed element: tag name, attributes, and an optional children
list (`none` models a JavaScript `undefined` `children` field). -/
structure Element where
  name : String
  attribs : Attribs
  children : Option (List ChildNode) := none
deriving Repr, DecidableEq

/-- `fetchContentInTag` (plugin lines 22-33): folds over the children,
keeping the `data` of each text-type child in turn. -/
def fetchContentInTag (tag : Element) : String :=
  match tag.children with
  | none => ""
  | some cs =>
    cs.foldl (fun content child => if child.type = "text" then child.data else content) ""

/-- `getFileName` (plugin lines 35-47): a `name` attribute wins, then a
`src` attribute with the extension replaced, else the MD5 hash of the
content. `md5` models `cryptoJS.MD5(·).toString()`. -/
def getFileName (md5 : String → String) (tagAttribs : Attribs) (content : String) : String :=
  match tagAttribs.name with
  | some n => n ++ ".png"
  | none =>
    match tagAttribs.src with
    | some src => removeExtension src ++ ".png"
    | none => md5 content ++ ".png"

/-- The plugin's `config` argument: `sourcePath` and `resultPath` from
the parser context. -/
structure Config where
  sourcePath : String
  resultPath : String
deriving Repr, DecidableEq

/-- The JavaScript `cwf || sourcePath` fallback in `getContent`
(line 52): `undefined` and the empty string are both falsy. -/
def cwfOrSource (cwf : Option String) (config : Config) : String :=
  match cwf with
  | some c => if c = "" then config.sourcePath else c
  | none => config.sourcePath

/-- `getContent` (plugin lines 50-67). The file system is modelled by
`fsRead : String → Option String` (`none` models a `readFileSync` that
throws); a failed read is caught, logged and turned into `""`. -/
def getContent (fsRead : String → Option String) (element : Element) (cwf : Option String)
    (config : Config) : String :=
  let cwf0 := cwfOrSource cwf config
  match element.attribs.src with
  | some src =>
    let rawDiagramPath := pathResolve (pathDirname cwf0) src
    match fsRead rawDiagramPath with
    | some fileContent => fileContent
    | none => ""
  | none => fetchContentInTag element

/-- The mutable state the plugin touches: the module-level
`processedDiagrams` set (line 70), the set of directories existing on
disk, and the log of renderer invocations (`exec` of the PlantUML jar,
recorded as output path and piped content). -/
structure GenState where
  processedDiagrams : List String
  existingDirs : List String
  execCalls : List (String × String)
deriving Repr, DecidableEq

/-- The output file path computed by `generateDiagram` (lines 82-84):
`join(dirname(resultPath), dirname(fileName))` then join the basename. -/
def outputFilePathOf (fileName : String) (config : Config) : String :=
  pathJoin (pathJoin (pathDirname config.resultPath) (pathDirname fileName))
    (pathBasename fileName)

/-- `generateDiagram` (plugin lines 79-125): returns `fileName` and the
updated state. If the output path was already processed nothing happens;
otherwise the path is recorded, the output directory is created when
missing, and the external renderer is invoked once. -/
def generateDiagram (fileName content : String) (config : Config) (st : GenState) :
    String × GenState :=
  let outputDir := pathJoin (pathDirname config.resultPath) (pathDirname fileName)
  let outputFilePath := pathJoin outputDir (pathBasename fileName)
  if outputFilePath ∈ st.processedDiagrams then (fileName, st)
  else
    let st1 := { st with processedDiagrams := outputFilePath :: st.processedDiagrams }
    let st2 := if outputDir ∈ st1.existingDirs then st1
               else { st1 with existingDirs := outputDir :: st1.existingDirs }
    let st3 := { st2 with execCalls := st2.execCalls ++ [(outputFilePath, content)] }
    (fileName, st3)

/-- The body of the `$('puml').each` callback (plugin lines 133-144) as a
pure per-element transformation: rename to `pic`, set `src` to the file
name returned by `generateDiagram`, clear the children. `generateDiagram`
always returns its `fileName` argument, so the new element does not
depend on the generation state. -/
def transformElement (md5 : String → String) (fsRead : String → Option String)
    (config : Config) (tag : Element) : Element :=
  let content := getContent fsRead tag tag.attribs.cwf config
  let fileName := getFileName md5 tag.attribs content
  { tag with
    name := "pic"
    attribs := { tag.attribs with src := some fileName }
    children := some [] }

/-- The `$('puml').each` loop over the document, threading the
generation state left to right; non-`puml` elements are untouched. -/
def processTags (md5 : String → String) (fsRead : String → Option String) (config : Config) :
    List Element → GenState → List Element × GenState
  | [], st => ([], st)
  | tag :: rest, st =>
    if tag.name = "puml" then
      let content := getContent fsRead tag tag.attribs.cwf config
      let fileName := getFileName md5 tag.attribs content
      let res := generateDiagram fileName content config st
      let tag' := { tag with
        name := "pic"
        attribs := { tag.attribs with src := some res.1 }
        children := some [] }
      let rec' := processTags md5 fsRead config rest res.2
      (tag' :: rec'.1, rec'.2)
    else
      let rec' := processTags md5 fsRead config rest st
      (tag :: rec'.1, rec'.2)

/-- `preRender` (plugin lines 128-147): clears `processedDiagrams`, then
processes every `puml` tag. Cheerio's parse/serialize round trip is
modelled as the identity on the element list, so the first component is
the returned markup. -/
def preRender (md5 : String → String) (fsRead : String → Option String) (config : Config)
    (doc : List Element) (st : GenState) : List Element × GenState :=
  processTags md5 fsRead config doc { st with processedDiagrams := [] }

end Plantuml

namespace ListCore

/-- Modelled from the spec: the kind of a `ListToken` / `ListNode`
(§3 data model) — Unordered, Ordered with its literal source ordinal,
Task with checked state, Radio with selected state, Continuation, Blank,
plus NonList for lines outside any list syntax. -/
inductive TokenKind where
  | Unordered
  | Ordered (ordinal : Nat)
  | Task (checked : Bool)
  | Radio (selected : Bool)
  | Continuation
  | Blank
  | NonList
deriving Repr, DecidableEq

/-- Modelled from the spec: `ListToken` — one parsed source line, with
its nesting depth from leading indentation, its kind, and its literal
content. -/
structure ListToken where
  depth : Nat
  kind : TokenKind
  text : List Char
deriving Repr, DecidableEq

/-- Horizontal whitespace inside a line. -/
def isWs (c : Char) : Bool := c = ' ' ∨ c = '\t'

/-- Modelled from the spec: leading-indentation width, converting a
literal tab to a fixed width of 4 (§4.1). -/
def indentWidth : List Char → Nat
  | ' ' :: cs => 1 + indentWidth cs
  | '\t' :: cs => 4 + indentWidth cs
  | _ => 0

/-- Drops leading horizontal whitespace. -/
def dropWs (cs : List Char) : List Char := cs.dropWhile isWs

/-- Modelled from the spec: the Task pattern `- [ ]` / `- [x]`,
case-insensitive `x` (§4.1); any other bracketed character is not a
Task match. -/
def taskOf : List Char → Option (TokenKind × List Char)
  | '-' :: ' ' :: '[' :: c :: ']' :: rest =>
    if c = ' ' then some (.Task false, dropWs rest)
    else if c = 'x' ∨ c = 'X' then some (.Task true, dropWs rest)
    else none
  | _ => none

/-- Modelled from the spec: the Radio pattern `- ( )` / `- (x)` (§4.1). -/
def radioOf : List Char → Option (TokenKind × List Char)
  | '-' :: ' ' :: '(' :: c :: ')' :: rest =>
    if c = ' ' then some (.Radio false, dropWs rest)
    else if c = 'x' ∨ c = 'X' then some (.Radio true, dropWs rest)
    else none
  | _ => none

/-- Modelled from the spec: the Unordered pattern — `-`, `*` or `+`
followed by whitespace (§4.1); the rest of the line is the literal
content. -/
def unorderedOf : List Char → Option (TokenKind × List Char)
  | m :: w :: rest =>
    if (m = '-' ∨ m = '*' ∨ m = '+') ∧ isWs w then some (.Unordered, dropWs rest) else none
  | _ => none

/-- Numeric value of a digit run. -/
def digitsToNat (ds : List Char) : Nat :=
  ds.foldl (fun n c => 10 * n + (c.toNat - 48)) 0

/-- Modelled from the spec: the Ordered pattern — digits then `.`
followed by whitespace or line end (§4.1); the parsed digits are the
recorded ordinal. -/
def orderedOf (cs : List Char) : Option (TokenKind × List Char) :=
  let ds := cs.takeWhile Char.isDigit
  let rest := cs.dropWhile Char.isDigit
  if ds = [] then none
  else
    match rest with
    | '.' :: rest2 =>
      match rest2 with
      | [] => some (.Ordered (digitsToNat ds), [])
      | w :: _ => if isWs w then some (.Ordered (digitsToNat ds), dropWs rest2) else none
    | _ => none

/-- Modelled from the spec: per-line marker classification in the spec's
detection order — Task, then Radio, then Unordered, then Ordered (§4.1);
`none` when no list marker matches. -/
def classifyBody (cs : List Char) : Option (TokenKind × List Char) :=
  match taskOf cs with
  | some r => some r
  | none =>
    match radioOf cs with
    | some r => some r
    | none =>
      match unorderedOf cs with
      | some r => some r
      | none => orderedOf cs

/-- Modelled from the spec: tokenize one line given the depth of the
nearest preceding list item — blank lines are Blank, marker lines get
their kind from `classifyBody`, a markerless line indented deeper than
the previous item is a Continuation, anything else is NonList (§4.1). -/
def tokenizeLine (prevItemDepth : Option Nat) (s : String) : ListToken :=
  let cs := s.data
  let w := indentWidth cs
  let body := dropWs cs
  if body = [] then ⟨w, .Blank, []⟩
  else
    match classifyBody body with
    | some kt => ⟨w, kt.1, kt.2⟩
    | none =>
      match prevItemDepth with
      | some d => if d < w then ⟨w, .Continuation, body⟩ else ⟨w, .NonList, body⟩
      | none => ⟨w, .NonList, body⟩

/-- Item kinds open a list context; Continuation, Blank and NonList do
not. -/
def isItemKind : TokenKind → Bool
  | .Unordered | .Ordered _ | .Task _ | .Radio _ => true
  | _ => false

/-- Modelled from the spec: tokenize a line sequence in source order,
tracking the depth of the most recent list item (reset by a NonList
line). -/
def tokenizeLinesAux (prev : Option Nat) : List String → List ListToken
  | [] => []
  | l :: rest =>
    let tok := tokenizeLine prev l
    let prev' := if isItemKind tok.kind then some tok.depth
                 else if tok.kind = .NonList then none else prev
    tok :: tokenizeLinesAux prev' rest

/-- Tokenizer entry point. -/
def tokenizeLines (lines : List String) : List ListToken := tokenizeLinesAux none lines

/-- Modelled from the spec: `ListNode` — one node of the list tree, with
its kind, inline content (continuations appended with a line break) and
nested children (§3). -/
inductive ListNode where
  | mk (kind : TokenKind) (content : List Char) (children : List ListNode)

/-- Continuation-token test. -/
def isContTok (t : ListToken) : Bool := t.kind = .Continuation

/-- Modelled from the spec: the List Tree Builder (§4.2) — each item
token claims the maximal run of strictly deeper tokens that follows it:
leading Continuations among them extend the item's content with a forced
line break, the rest become its children; Blank, NonList and stray
Continuation tokens open no node. -/
def buildForest : List ListToken → List ListNode
  | [] => []
  | t :: rest =>
    if isItemKind t.kind then
      let deeper := rest.takeWhile (fun u => t.depth < u.depth)
      let rest' := rest.dropWhile (fun u => t.depth < u.depth)
      let conts := deeper.takeWhile isContTok
      let deeper' := deeper.dropWhile isContTok
      let content := conts.foldl (fun acc u => acc ++ '\n' :: u.text) t.text
      .mk t.kind content (buildForest deeper') :: buildForest rest'
    else
      buildForest rest
termination_by ts => ts.length
decreasing_by
  · exact Nat.lt_succ_of_le
      (Nat.le_trans ((List.dropWhile_sublist isContTok).length_le)
        ((List.takeWhile_sublist _).length_le))
  · exact Nat.lt_succ_of_le (List.dropWhile_sublist _).length_le
  · exact Nat.lt_succ_of_le (Nat.le_refl _)

/-- Modelled from the spec: the Renderer (§4.3) — ordered items are
renumbered sequentially by a counter threaded through the sibling list,
regardless of their source ordinals; task and radio items render their
checked/selected state; children render recursively. -/
def renderList : Nat → List ListNode → String
  | _, [] => ""
  | k, .mk kind content children :: rest =>
    let contentStr := String.mk content
    let childrenStr := renderList 1 children
    match kind with
    | .Ordered _ =>
      toString k ++ ". " ++ contentStr ++ "\n" ++ childrenStr ++ renderList (k + 1) rest
    | .Unordered => "- " ++ contentStr ++ "\n" ++ childrenStr ++ renderList k rest
    | .Task true => "- [x] " ++ contentStr ++ "\n" ++ childrenStr ++ renderList k rest
    | .Task false => "- [ ] " ++ contentStr ++ "\n" ++ childrenStr ++ renderList k rest
    | .Radio true => "- (x) " ++ contentStr ++ "\n" ++ childrenStr ++ renderList k rest
    | .Radio false => "- ( ) " ++ contentStr ++ "\n" ++ childrenStr ++ renderList k rest
    | _ => childrenStr ++ renderList k rest

/-- Full pipeline: tokenize, build the tree, render. -/
def renderLines (lines : List String) : String :=
  renderList 1 (buildForest (tokenizeLines lines))

/-- The spec's sequential-renumbering policy stated directly on a flat
item list: item number `k` renders as `k. <text>`, then `k + 1`, … -/
def specSequentialRender (k : Nat) : List (List Char) → String
  | [] => ""
  | t :: ts => toString k ++ ". " ++ String.mk t ++ "\n" ++ specSequentialRender (k + 1) ts

/-- A flat run of ordered tokens at depth 0 carrying arbitrary source
ordinals and texts. -/
def orderedTokens (items : List (Nat × List Char)) : List ListToken :=
  items.map (fun p => ⟨0, .Ordered p.1, p.2⟩)

end ListCore

open Plantuml ListCore

theorem generateDiagram_fst (f c : String) (cfg : Config) (st : GenState) :
    (generateDiagram f c cfg st).1 = f := by
  simp only [generateDiagram]
  split <;> rfl

theorem generateDiagram_mem (f c : String) (cfg : Config) (st : GenState) :
    outputFilePathOf f cfg ∈ (generateDiagram f c cfg st).2.processedDiagrams := by
  simp only [generateDiagram, outputFilePathOf]
  split
  · assumption
  · split <;> exact List.mem_cons_self _ _

theorem generateDiagram_of_mem (f c : String) (cfg : Config) (st : GenState)
    (h : outputFilePathOf f cfg ∈ st.processedDiagrams) :
    generateDiagram f c cfg st = (f, st) := by
  simp only [generateDiagram, outputFilePathOf] at h ⊢
  rw [if_pos h]

theorem processTags_fst (md5 : String → String) (fsRead : String → Option String)
    (cfg : Config) (doc : List Element) (st : GenState) :
    (processTags md5 fsRead cfg doc st).1 =
      doc.map (fun tag => if tag.name = "puml" then transformElement md5 fsRead cfg tag else tag) := by
  induction doc generalizing st with
  | nil => rfl
  | cons tag rest ih =>
    by_cases h : tag.name = "puml"
    · simp only [processTags, h, List.map_cons, ite_true, List.cons.injEq]
      refine ⟨?_, ih _⟩
      simp [transformElement, generateDiagram_fst]
    · simp only [processTags, h, ite_false, List.map_cons, List.cons.injEq]
      exact ⟨by trivial, ih _⟩

theorem preRender_fst (md5 : String → String) (fsRead : String → Option String)
    (cfg : Config) (doc : List Element) (st : GenState) :
    (preRender md5 fsRead cfg doc st).1 =
      doc.map (fun tag => if tag.name = "puml" then transformElement md5 fsRead cfg tag else tag) :=
  processTags_fst md5 fsRead cfg doc _

/-- C1: a `<puml>` tag with neither a `name` nor a `src` attribute gets
the file name `MD5(content) ++ ".png"`; two such tags with the same
content get the same file name, and a second `generateDiagram` call on
that file name is a no-op, so the diagram is generated at most once per
render pass. -/
theorem contentHash_naming_and_dedup (md5 : String → String) (a1 a2 : Attribs)
    (content c1 c2 : String) (cfg : Config) (st : GenState)
    (h1 : a1.name = none) (h2 : a1.src = none) (h3 : a2.name = none) (h4 : a2.src = none) :
    getFileName md5 a1 content = md5 content ++ ".png" ∧
    getFileName md5 a2 content = getFileName md5 a1 content ∧
    generateDiagram (getFileName md5 a1 content) c2 cfg
        (generateDiagram (getFileName md5 a1 content) c1 cfg st).2 =
      (getFileName md5 a1 content, (generateDiagram (getFileName md5 a1 content) c1 cfg st).2) := by
  refine ⟨?_, ?_, ?_⟩
  · simp [getFileName, h1, h2]
  · simp [getFileName, h1, h2, h3, h4]
  · exact generateDiagram_of_mem _ _ _ _ (generateDiagram_mem _ _ _ _)

/-- Witness for C1 at a concrete nameless, srcless tag pair. -/
theorem contentHash_naming_and_dedup_witness :
    getFileName (fun s => s) {} "uml" = (fun s => s) "uml" ++ ".png" ∧
    getFileName (fun s => s) { others := [("alt", "d")] } "uml" = getFileName (fun s => s) {} "uml" ∧
    generateDiagram (getFileName (fun s => s) {} "uml") "uml" ⟨"sp", "out/r.html"⟩
        (generateDiagram (getFileName (fun s => s) {} "uml") "uml" ⟨"sp", "out/r.html"⟩
          ⟨[], [], []⟩).2 =
      (getFileName (fun s => s) {} "uml",
       (generateDiagram (getFileName (fun s => s) {} "uml") "uml" ⟨"sp", "out/r.html"⟩
         ⟨[], [], []⟩).2) :=
  contentHash_naming_and_dedup (fun s => s) {} { others := [("alt", "d")] } "uml" "uml" "uml"
    ⟨"sp", "out/r.html"⟩ ⟨[], [], []⟩ rfl rfl rfl rfl

/-- C2: when the output file path is already in the processed-diagrams
set, `generateDiagram` returns the file name and leaves the state
untouched (no directory creation, no renderer invocation); moreover
after any call the path is recorded, so an immediate second call with
the same file name and config is always a no-op. -/
theorem generateDiagram_idempotent (f c c2 : String) (cfg : Config) (st : GenState)
    (h : outputFilePathOf f cfg ∈ st.processedDiagrams) :
    generateDiagram f c cfg st = (f, st) ∧
    ∀ st0 : GenState,
      generateDiagram f c2 cfg (generateDiagram f c cfg st0).2 =
        (f, (generateDiagram f c cfg st0).2) :=
  ⟨generateDiagram_of_mem f c cfg st h,
   fun st0 => generateDiagram_of_mem _ _ _ _ (generateDiagram_mem f c cfg st0)⟩

/-- Witness for C2 at a concrete already-processed path. -/
theorem generateDiagram_idempotent_witness :
    generateDiagram "abc.png" "c" ⟨"sp", "out/r.html"⟩ ⟨["out/abc.png"], ["out"], []⟩ =
      ("abc.png", ⟨["out/abc.png"], ["out"], []⟩) :=
  (generateDiagram_idempotent "abc.png" "c" "c" ⟨"sp", "out/r.html"⟩
    ⟨["out/abc.png"], ["out"], []⟩ (by decide)).1

/-- C3: `preRender` clears the processed-diagrams set before processing
any tag, so its whole result is independent of the cache contents left
by an earlier render pass. -/
theorem preRender_clears_cache (md5 : String → String) (fsRead : String → Option String)
    (cfg : Config) (doc : List Element) (P P' d e : _) :
    preRender md5 fsRead cfg doc ⟨P, d, e⟩ = preRender md5 fsRead cfg doc ⟨P', d, e⟩ := rfl

/-- C5: rendering is deterministic — with the same document, config and
file-system contents, the markup returned by `preRender` is the same
string whatever the plugin state, in particular across two successive
runs on the same input. -/
theorem preRender_deterministic (md5 : String → String) (fsRead : String → Option String)
    (cfg : Config) (doc : List Element) (st1 st2 : GenState) :
    (preRender md5 fsRead cfg doc st1).1 = (preRender md5 fsRead cfg doc st2).1 := by
  rw [preRender_fst, preRender_fst]

/-- C4: after `preRender`, every element that was a `<puml>` tag has tag
name `pic`, its `src` attribute set to the file name `generateDiagram`
returns for its content, and an empty children list, while every other
element is returned unaltered. -/
theorem preRender_transforms_puml_tags (md5 : String → String)
    (fsRead : String → Option String) (cfg : Config) (doc : List Element) (st : GenState) :
    (preRender md5 fsRead cfg doc st).1 =
      doc.map (fun tag => if tag.name = "puml" then transformElement md5 fsRead cfg tag else tag) ∧
    ∀ tag : Element,
      (tag.name = "puml" →
        (transformElement md5 fsRead cfg tag).name = "pic" ∧
        (transformElement md5 fsRead cfg tag).children = some [] ∧
        (transformElement md5 fsRead cfg tag).attribs.src =
          some ((generateDiagram
            (getFileName md5 tag.attribs (getContent fsRead tag tag.attribs.cwf cfg))
            (getContent fsRead tag tag.attribs.cwf cfg) cfg st).1)) ∧
      (tag.name ≠ "puml" →
        (if tag.name = "puml" then transformElement md5 fsRead cfg tag else tag) = tag) := by
  refine ⟨preRender_fst md5 fsRead cfg doc st, fun tag => ⟨fun _ => ?_, fun h => if_neg h⟩⟩
  simp [transformElement, generateDiagram_fst]

/-- Witness for C4 at a concrete two-element document. -/
theorem preRender_transforms_puml_tags_witness :
    (transformElement (fun s => s) (fun _ => none) ⟨"sp", "rp"⟩
      ⟨"puml", {}, some [⟨"text", "u"⟩]⟩).name = "pic" ∧
    (if ("div" : String) = "puml" then
        transformElement (fun s => s) (fun _ => none) ⟨"sp", "rp"⟩ ⟨"div", {}, none⟩
      else (⟨"div", {}, none⟩ : Element)) = ⟨"div", {}, none⟩ :=
  ⟨(((preRender_transforms_puml_tags (fun s => s) (fun _ => none) ⟨"sp", "rp"⟩ []
      ⟨[], [], []⟩).2 ⟨"puml", {}, some [⟨"text", "u"⟩]⟩).1 rfl).1,
   ((preRender_transforms_puml_tags (fun s => s) (fun _ => none) ⟨"sp", "rp"⟩ []
      ⟨[], [], []⟩).2 ⟨"div", {}, none⟩).2 (by decide)⟩

/-- C8: when the `<puml>` tag has a `src` attribute and the resolved
file cannot be read, `getContent` returns the empty string instead of
propagating the failure, and the tag is still converted — the
transformed element is a `pic` whose `src` is the file name computed
from empty content. -/
theorem getContent_unreadable_src_empty (md5 : String → String)
    (fsRead : String → Option String) (e : Element) (cfg : Config) (s : String)
    (hsrc : e.attribs.src = some s)
    (hfail : fsRead (pathResolve (pathDirname (cwfOrSource e.attribs.cwf cfg)) s) = none) :
    getContent fsRead e e.attribs.cwf cfg = "" ∧
    (transformElement md5 fsRead cfg e).name = "pic" ∧
    (transformElement md5 fsRead cfg e).attribs.src =
      some (getFileName md5 e.attribs "") := by
  have hc : getContent fsRead e e.attribs.cwf cfg = "" := by
    simp [getContent, hsrc, hfail]
  exact ⟨hc, rfl, by simp [transformElement, hc]⟩

/-- Witness for C8 at a concrete element whose `src` target is missing. -/
theorem getContent_unreadable_src_empty_witness :
    getContent (fun _ => none) ⟨"puml", { src := some "d.puml" }, none⟩ (some "a/b.md")
        ⟨"sp", "rp"⟩ = "" ∧
    (transformElement (fun s => s) (fun _ => none) ⟨"sp", "rp"⟩
        ⟨"puml", { src := some "d.puml", cwf := some "a/b.md" }, none⟩).name = "pic" ∧
    (transformElement (fun s => s) (fun _ => none) ⟨"sp", "rp"⟩
        ⟨"puml", { src := some "d.puml", cwf := some "a/b.md" }, none⟩).attribs.src =
      some (getFileName (fun s => s) { src := some "d.puml", cwf := some "a/b.md" } "") := by
  have h := getContent_unreadable_src_empty (fun s => s) (fun _ => none)
    ⟨"puml", { src := some "d.puml", cwf := some "a/b.md" }, none⟩ ⟨"sp", "rp"⟩ "d.puml"
    rfl rfl
  exact ⟨h.1, h.2⟩

theorem foldl_keep_last {α β : Type} (p : α → Prop) [DecidablePred p] (f : α → β)
    (l : List α) (b : β) :
    l.foldl (fun acc c => if p c then f c else acc) b =
      (((l.filter (fun c => p c)).getLast?).map f).getD b := by
  induction l generalizing b with
  | nil => rfl
  | cons c l ih =>
    rw [List.foldl_cons, ih]
    by_cases hc : p c
    · rw [if_pos hc, List.filter_cons_of_pos (by simpa using hc)]
      cases hl : l.filter (fun c => p c) with
      | nil => rfl
      | cons d ds =>
        rw [List.getLast?_cons_cons, List.getLast?_eq_getLast (d :: ds) (by simp)]
        rfl
    · rw [if_neg hc, List.filter_cons_of_neg (by simpa using hc)]

/-- C9: `fetchContentInTag` returns the `data` of the last text-type
child — a later text child overwrites an earlier one — and the empty
string when the tag has no children field or no text-type child. -/
theorem fetchContentInTag_last_text_child (tag : Element) :
    fetchContentInTag tag =
      match tag.children with
      | none => ""
      | some cs =>
        (((cs.filter (fun c => c.type = "text")).getLast?).map ChildNode.data).getD "" := by
  cases h : tag.children with
  | none => simp [fetchContentInTag, h]
  | some cs =>
    simp only [fetchContentInTag, h]
    exact foldl_keep_last (fun c : ChildNode => c.type = "text") ChildNode.data cs ""

/-- C10: `getFileName` resolves the output name by strict precedence —
a `name` attribute always wins, otherwise a `src` attribute has its
extension replaced by `.png`, and only when both are absent is the
content hash used; a tag carrying a `name` or `src` attribute gets a
file name independent of its content. -/
theorem getFileName_attribute_precedence (md5 : String → String) (a : Attribs)
    (content : String) :
    (∀ n, a.name = some n → getFileName md5 a content = n ++ ".png") ∧
    (a.name = none → ∀ s, a.src = some s →
      getFileName md5 a content = removeExtension s ++ ".png") ∧
    (a.name = none → a.src = none → getFileName md5 a content = md5 content ++ ".png") ∧
    ((a.name ≠ none ∨ a.src ≠ none) → ∀ c2 : String,
      getFileName md5 a content = getFileName md5 a c2) := by
  refine ⟨fun n hn => by simp [getFileName, hn],
    fun hn s hs => by simp [getFileName, hn, hs],
    fun hn hs => by simp [getFileName, hn, hs], fun h c2 => ?_⟩
  cases hn : a.name with
  | some n => simp [getFileName, hn]
  | none =>
    cases hs : a.src with
    | some s => simp [getFileName, hn, hs]
    | none => cases h <;> simp_all

/-- Witness for C10 at concrete attribute combinations. -/
theorem getFileName_attribute_precedence_witness :
    getFileName (fun s => s) { name := some "n", src := some "d.puml" } "c" = "n" ++ ".png" ∧
    getFileName (fun s => s) { src := some "d.puml" } "c" =
      removeExtension "d.puml" ++ ".png" ∧
    getFileName (fun s => s) { src := some "d.puml" } "c" =
      getFileName (fun s => s) { src := some "d.puml" } "e" :=
  ⟨(getFileName_attribute_precedence (fun s => s) { name := some "n", src := some "d.puml" }
      "c").1 "n" rfl,
   (getFileName_attribute_precedence (fun s => s) { src := some "d.puml" } "c").2.1 rfl
     "d.puml" rfl,
   (getFileName_attribute_precedence (fun s => s) { src := some "d.puml" } "c").2.2.2
     (Or.inr (by simp)) "e"⟩

theorem buildForest_orderedTokens (items : List (Nat × List Char)) :
    buildForest (orderedTokens items) =
      items.map (fun p => ListNode.mk (.Ordered p.1) p.2 []) := by
  induction items with
  | nil => simp [orderedTokens, buildForest]
  | cons q qs ih =>
    have htake : (orderedTokens qs).takeWhile (fun u => (0 : Nat) < u.depth) = [] := by
      cases qs with
      | nil => rfl
      | cons r rs => simp [orderedTokens, List.takeWhile_cons]
    have hdrop : (orderedTokens qs).dropWhile (fun u => (0 : Nat) < u.depth) = orderedTokens qs := by
      cases qs with
      | nil => rfl
      | cons r rs => simp [orderedTokens, List.dropWhile_cons]
    rw [show orderedTokens (q :: qs) = ⟨0, .Ordered q.1, q.2⟩ :: orderedTokens qs from rfl,
      buildForest]
    simp [isItemKind, htake, hdrop, ih, buildForest, List.takeWhile, List.dropWhile]

theorem renderList_flat_ordered (k : Nat) (items : List (Nat × List Char)) :
    renderList k (items.map (fun p => ListNode.mk (.Ordered p.1) p.2 [])) =
      specSequentialRender k (items.map Prod.snd) := by
  induction items generalizing k with
  | nil => simp [renderList, specSequentialRender]
  | cons q qs ih => simp [renderList, specSequentialRender, ih]

/-- C6: a flat ordered list whose tokens carry arbitrary source
ordinals — in particular repeated literal `1.` items — is rendered with
sequential numbers 1, 2, 3, … in document order; the spec's example
`1.\n1.\n1.` renders as `1.`, `2.`, `3.`. -/
theorem ordered_items_renumbered_sequentially :
    (∀ items : List (Nat × List Char),
      renderList 1 (buildForest (orderedTokens items)) =
        specSequentialRender 1 (items.map Prod.snd)) ∧
    renderLines ["1.", "1.", "1."] = "1. \n2. \n3. \n" := by
  constructor
  · intro items
    rw [buildForest_orderedTokens, renderList_flat_ordered]
  · rw [renderLines,
      show tokenizeLines ["1.", "1.", "1."] = orderedTokens [(1, []), (1, []), (1, [])] from rfl,
      buildForest_orderedTokens, renderList_flat_ordered]
    rfl

/-- C7: a line with a malformed checkbox or radio marker (any bracketed
character other than a space or an `x`) is not classified as Task or
Radio: it falls through to an Unordered token whose content keeps the
bracket text literally, and the whole pipeline is total — every line
sequence renders to some output. -/
theorem malformed_checkbox_degrades_to_unordered (c : Char) (rest : List Char)
    (h1 : c ≠ ' ') (h2 : c ≠ 'x') (h3 : c ≠ 'X') :
    classifyBody ('-' :: ' ' :: '[' :: c :: ']' :: rest) =
      some (.Unordered, '[' :: c :: ']' :: rest) ∧
    classifyBody ('-' :: ' ' :: '(' :: c :: ')' :: rest) =
      some (.Unordered, '(' :: c :: ')' :: rest) ∧
    tokenizeLine none (String.mk ('-' :: ' ' :: '[' :: c :: ']' :: rest)) =
      ⟨0, .Unordered, '[' :: c :: ']' :: rest⟩ ∧
    ∀ lines : List String, ∃ out : String, renderLines lines = out := by
  have htask : taskOf ('-' :: ' ' :: '[' :: c :: ']' :: rest) = none := by
    simp [taskOf, h1, h2, h3]
  have hradio : radioOf ('-' :: ' ' :: '(' :: c :: ')' :: rest) = none := by
    simp [radioOf, h1, h2, h3]
  have hradio2 : radioOf ('-' :: ' ' :: '[' :: c :: ']' :: rest) = none := rfl
  have htask2 : taskOf ('-' :: ' ' :: '(' :: c :: ')' :: rest) = none := rfl
  have hsq : classifyBody ('-' :: ' ' :: '[' :: c :: ']' :: rest) =
      some (.Unordered, '[' :: c :: ']' :: rest) := by
    simp [classifyBody, htask, hradio2, unorderedOf, dropWs, isWs]
  refine ⟨hsq, by simp [classifyBody, hradio, htask2, unorderedOf, dropWs, isWs], ?_,
    fun lines => ⟨renderLines lines, rfl⟩⟩
  simp [tokenizeLine, hsq, dropWs, isWs, indentWidth]

/-- Witness for C7 at the spec's example character `y`. -/
theorem malformed_checkbox_degrades_to_unordered_witness :
    classifyBody ('-' :: ' ' :: '[' :: 'y' :: ']' :: []) =
      some (.Unordered, '[' :: 'y' :: ']' :: []) ∧
    classifyBody ('-' :: ' ' :: '(' :: 'y' :: ')' :: []) =
      some (.Unordered, '(' :: 'y' :: ')' :: []) ∧
    tokenizeLine none (String.mk ('-' :: ' ' :: '[' :: 'y' :: ']' :: [])) =
      ⟨0, .Unordered, '[' :: 'y' :: ']' :: []⟩ ∧
    ∀ lines : List String, ∃ out : String, renderLines lines = out :=
  malformed_checkbox_degrades_to_unordered 'y' [] (by decide) (by decide) (by decide)
